import Mathlib

/-!
# Shipment-Calculator: a shallow embedding of `src/vinted.py`

This file embeds the Python program `vinted.py` (a shipment pricing and
monthly-discount calculator) into Lean 4 and proves properties of the
embedding.

Modelling decisions:
* Python strings are Lean `String`s; Python tuples of strings (the
  validator's output values) are `List String`.
* Monetary floats are modelled as integer cents (`Int`).  Every monetary
  value the program can reach is an exact multiple of 0.10, and for those
  values Python's float comparisons, additions, subtractions and `:.2f`
  formatting agree exactly with arithmetic on cents.
* `str.split()` / `str.strip()` are modelled over Python's whitespace
  character set; `\d` in `strptime`'s regex is modelled as the ASCII
  digits `'0'..'9'` (CPython would additionally accept non-ASCII decimal
  digits; no claim in this development depends on such inputs).
* Code that would raise a `KeyError` (a provider missing from `PRICES`)
  returns `none`.
* The `defaultdict` tracking state is a total function from year-month
  keys to a record, with the default record at every key initially.
-/

namespace Vinted

/-- The set of characters Python's `str.split()` / `str.strip()` treat as
whitespace (Unicode whitespace, by code point). -/
def pyIsSpace (c : Char) : Bool :=
  c.toNat ∈ [9, 10, 11, 12, 13, 28, 29, 30, 31, 32, 0x85, 0xa0, 0x1680,
    0x2000, 0x2001, 0x2002, 0x2003, 0x2004, 0x2005, 0x2006, 0x2007, 0x2008,
    0x2009, 0x200a, 0x2028, 0x2029, 0x202f, 0x205f, 0x3000]

/-- Helper for `pySplit`: scans the character list, accumulating the current
(reversed) token in `acc`. -/
def pySplitGo : List Char → List Char → List String
  | [], acc => if acc = [] then [] else [⟨acc.reverse⟩]
  | c :: cs, acc =>
    if pyIsSpace c then
      if acc = [] then pySplitGo cs [] else ⟨acc.reverse⟩ :: pySplitGo cs []
    else
      pySplitGo cs (c :: acc)

/-- Python's `str.split()` with no argument: split on runs of whitespace,
discarding empty tokens. -/
def pySplit (s : String) : List String :=
  pySplitGo s.toList []

/-- Python's `str.strip()` with no argument: remove leading and trailing
whitespace. -/
def pyStrip (s : String) : String :=
  ⟨((s.toList.dropWhile pyIsSpace).reverse.dropWhile pyIsSpace).reverse⟩

/-- Python's `s[:n]` string slice (by code point, like Lean's `toList`). -/
def pyTake (s : String) (n : Nat) : String :=
  ⟨s.toList.take n⟩

/-- Decimal value of a digit string. -/
def digitsToNat (cs : List Char) : Nat :=
  cs.foldl (fun a c => 10 * a + (c.toNat - '0'.toNat)) 0

/-- Gregorian leap-year rule, as in Python's `datetime`. -/
def isLeapYear (y : Nat) : Bool :=
  y % 4 = 0 && (y % 100 ≠ 0 || y % 400 = 0)

/-- Number of days of month `m` in year `y`, as in Python's `datetime`. -/
def daysInMonth (y m : Nat) : Nat :=
  if m = 2 then (if isLeapYear y then 29 else 28)
  else if m = 4 ∨ m = 6 ∨ m = 9 ∨ m = 11 then 30
  else 31

/-- Model of CPython's `datetime.datetime.strptime(s, "%Y-%m-%d")`, on a
character list.  CPython compiles the format to the regex
`\d\d\d\d-(1[0-2]|0[1-9]|[1-9])-(3[01]|[12]\d|0[1-9]|[1-9])`, requires it to
consume the whole string, and then builds `datetime(year, month, day)`,
which additionally demands `MINYEAR = 1 ≤ year` and
`day ≤ days in the month` (leap years included).  Because the month and day
groups match only digits, a successful match takes the maximal digit run
(of length 1 or 2) between the literal dashes, which is what the
`takeWhile`/`dropWhile` pair below computes. -/
def strptimeYmdL : List Char → Option (Nat × Nat × Nat)
  | y1 :: y2 :: y3 :: y4 :: dash :: rest =>
    if dash = '-' ∧ y1.isDigit ∧ y2.isDigit ∧ y3.isDigit ∧ y4.isDigit then
      let mcs := rest.takeWhile Char.isDigit
      match rest.dropWhile Char.isDigit with
      | d2 :: dcs =>
        if d2 = '-' ∧ dcs.all Char.isDigit ∧
            (mcs.length = 1 ∨ mcs.length = 2) ∧
            1 ≤ digitsToNat mcs ∧ digitsToNat mcs ≤ 12 ∧
            (dcs.length = 1 ∨ dcs.length = 2) ∧
            1 ≤ digitsToNat dcs ∧ digitsToNat dcs ≤ 31 ∧
            1 ≤ digitsToNat [y1, y2, y3, y4] ∧
            digitsToNat dcs ≤
              daysInMonth (digitsToNat [y1, y2, y3, y4])
                (digitsToNat mcs) then
          some (digitsToNat [y1, y2, y3, y4], digitsToNat mcs,
            digitsToNat dcs)
        else none
      | [] => none
    else none
  | _ => none

/-- `datetime.datetime.strptime(date, "%Y-%m-%d")` on a string; `none`
models the `ValueError` that `check_transaction` catches. -/
def strptimeYmd (s : String) : Option (Nat × Nat × Nat) :=
  strptimeYmdL s.toList

/-- `check_transaction` from `vinted.py`: split the line; a token count
other than 3 (the catch-all pattern), a date that fails
`strptime(date, "%Y-%m-%d")`, a size outside `{"S","M","L"}` or a provider
outside `{"LP","MR"}` each yield `(transaction, "Ignored")`; otherwise the
`(date, size, provider)` tuple is returned. -/
def check_transaction (transaction : String) : List String :=
  match pySplit transaction with
  | [date, size, provider] =>
    if (strptimeYmd date).isNone then [transaction, "Ignored"]
    else if size ∉ (["S", "M", "L"] : List String) ∨
        provider ∉ (["LP", "MR"] : List String) then [transaction, "Ignored"]
    else [date, size, provider]
  | _ => [transaction, "Ignored"]

/-- `validate_transactions` from `vinted.py`: `check_transaction` applied to
each raw line, in order. -/
def validate_transactions (raw_transactions : List String) : List (List String) :=
  raw_transactions.map check_transaction

/-- The inner dictionary `PRICES[provider]`, looked up at `size`, in cents:
`LP ↦ {S: 1.50, M: 4.90, L: 6.90}`, `MR ↦ {S: 2.00, M: 3.00, L: 4.00}`.
`none` when the size key is absent from the row, or the provider row itself
is absent. -/
def PRICES_entry (provider size : String) : Option Int :=
  if provider = "LP" then
    if size = "S" then some 150 else if size = "M" then some 490
    else if size = "L" then some 690 else none
  else if provider = "MR" then
    if size = "S" then some 200 else if size = "M" then some 300
    else if size = "L" then some 400 else none
  else none

/-- `PRICES[provider][size]`: `none` models the `KeyError` raised when the
provider or size key is missing. -/
def PRICES_idx (provider size : String) : Option Int :=
  PRICES_entry provider size

/-- `PRICES[provider].get(size, 0.0)`: `none` models the `KeyError` on a
missing provider row; a missing size defaults to `0.0`. -/
def PRICES_get_default (provider size : String) : Option Int :=
  if provider = "LP" ∨ provider = "MR" then
    some ((PRICES_entry provider size).getD 0)
  else none

/-- One value of the `tracking_data` defaultdict:
`{"L_LP_count": 0, "discount": 0.0}` with the discount in cents. -/
structure MonthData where
  L_LP_count : Nat
  discount : Int
deriving DecidableEq

/-- `tracking_data`: the per-month accumulator map, modelled as a total
function from year-month keys (its defaultdict default at every key not yet
written). -/
def TrackingData : Type := String → MonthData

/-- The fresh `defaultdict(lambda: {"L_LP_count": 0, "discount": 0.0})`. -/
def initialTracking : TrackingData := fun _ => ⟨0, 0⟩

/-- Write through the tracking map at one key (a mutation of
`tracking_data[year_month]`). -/
def updateTd (td : TrackingData) (k : String) (f : MonthData → MonthData) :
    TrackingData :=
  fun k2 => if k2 = k then f (td k2) else td k2

/-- `monthly_limit = 10.0`, in cents. -/
def monthly_limit : Int := 1000

/-- `calculate_discount` from `vinted.py`.  Returns
`(new_price, discount_amount, updated tracking_data)`, in cents; `none`
models a `KeyError` from `PRICES` (unreachable for validated input). -/
def calculate_discount (size provider year_month : String)
    (tracking_data : TrackingData) : Option (Int × Int × TrackingData) :=
  if size = "L" ∧ provider = "LP" then
    -- tracking_data[year_month]["L_LP_count"] += 1
    let tracking_data := updateTd tracking_data year_month
      fun d => { d with L_LP_count := d.L_LP_count + 1 }
    let current_count := (tracking_data year_month).L_LP_count
    if current_count = 3 then
      match PRICES_idx provider "L" with
      | none => none
      | some base =>
        let discount_amount := base
        let total_discount := (tracking_data year_month).discount + discount_amount
        if total_discount > monthly_limit then
          let discount_amount :=
            monthly_limit - (tracking_data year_month).discount
          let tracking_data := updateTd tracking_data year_month
            fun d => { d with discount := d.discount + discount_amount }
          some (base - discount_amount, discount_amount, tracking_data)
        else
          let tracking_data := updateTd tracking_data year_month
            fun d => { d with discount := d.discount + discount_amount }
          some (0, discount_amount, tracking_data)
    else
      match PRICES_idx provider "L" with
      | none => none
      | some base => some (base, 0, tracking_data)
  else if size = "S" then
    match PRICES_idx "LP" "S", PRICES_idx "MR" "S" with
    | some lpS, some mrS =>
      let lowest_price_size_s := min lpS mrS
      match PRICES_idx provider "S" with
      | none => none
      | some baseS =>
        let discount_amount := baseS - lowest_price_size_s
        if discount_amount ≠ 0 then
          if (tracking_data year_month).discount + discount_amount >
              monthly_limit then
            let discount_amount :=
              monthly_limit - (tracking_data year_month).discount
            let tracking_data := updateTd tracking_data year_month
              fun d => { d with discount := d.discount + discount_amount }
            some (baseS - discount_amount, discount_amount, tracking_data)
          else
            let tracking_data := updateTd tracking_data year_month
              fun d => { d with discount := d.discount + discount_amount }
            some (lowest_price_size_s, discount_amount, tracking_data)
        else
          some (baseS, 0, tracking_data)
    | _, _ => none
  else
    match PRICES_get_default provider size with
    | none => none
    | some p => some (p, 0, tracking_data)

/-- Python's `f"{x:.2f}"` on the monetary values the program reaches,
rendered from cents: an optional sign, the whole units, a point, and
exactly two digits. -/
def formatCents (n : Int) : String :=
  (if n < 0 then "-" else "") ++ toString (n.natAbs / 100) ++ "." ++
    ⟨[Nat.digitChar (n.natAbs % 100 / 10), Nat.digitChar (n.natAbs % 100 % 10)]⟩

/-- The two f-string templates of `process_transactions`: the dash form when
`new_price == price and discount_amount == 0.0`, the discounted form
otherwise. -/
def renderLine (date size provider : String)
    (price new_price discount_amount : Int) : String :=
  if new_price = price ∧ discount_amount = 0 then
    date ++ " " ++ size ++ " " ++ provider ++ " " ++ formatCents price ++ " -"
  else
    date ++ " " ++ size ++ " " ++ provider ++ " " ++ formatCents new_price ++
      " " ++ formatCents discount_amount

/-- The `for entry in transactions` loop of `process_transactions`,
returning the accumulated output lines together with the final
`tracking_data`.  A tuple whose last element is `"Ignored"` is echoed (each
part stripped, joined by single spaces); a 3-tuple is priced and formatted;
any other shape falls through and emits nothing. -/
def processLoop : List (List String) → TrackingData →
    Option (List String × TrackingData)
  | [], tracking_data => some ([], tracking_data)
  | entry :: rest, tracking_data =>
    if entry.getLast? = some "Ignored" then
      let cleaned_transaction := String.intercalate " " (entry.map pyStrip)
      (processLoop rest tracking_data).map
        fun r => (cleaned_transaction :: r.1, r.2)
    else
      match entry with
      | [date, size, provider] =>
        let year_month := pyTake date 7
        match PRICES_get_default provider size with
        | none => none
        | some price =>
          match calculate_discount size provider year_month tracking_data with
          | none => none
          | some (new_price, discount_amount, td2) =>
            (processLoop rest td2).map
              fun r =>
                (renderLine date size provider price new_price discount_amount
                  :: r.1, r.2)
      | _ => processLoop rest tracking_data

/-- `process_transactions` from `vinted.py`: run the loop from a fresh
tracking map and return the output lines. -/
def process_transactions (transactions : List (List String)) :
    Option (List String) :=
  (processLoop transactions initialTracking).map Prod.fst

/-- The `(year_month, discount_amount)` pair of every priced transaction, in
processing order: the same loop as `processLoop`, recording the discount
granted by `calculate_discount` instead of the formatted line. -/
def discountTrace : List (List String) → TrackingData →
    Option (List (String × Int))
  | [], _ => some []
  | entry :: rest, tracking_data =>
    if entry.getLast? = some "Ignored" then
      discountTrace rest tracking_data
    else
      match entry with
      | [date, size, provider] =>
        match PRICES_get_default provider size with
        | none => none
        | some _ =>
          match calculate_discount size provider (pyTake date 7)
              tracking_data with
          | none => none
          | some (_, discount_amount, td2) =>
            (discountTrace rest td2).map
              fun t => (pyTake date 7, discount_amount) :: t
      | _ => discountTrace rest tracking_data

/-- Shape of the values `check_transaction` can return: an
`(original, "Ignored")` pair, or a `(date, size, provider)` triple whose
date parses and whose size and provider are in the valid sets. -/
def validEntry (entry : List String) : Bool :=
  match entry with
  | [date, size, provider] =>
    (strptimeYmd date).isSome &&
      (size == "S" || size == "M" || size == "L") &&
      (provider == "LP" || provider == "MR")
  | [_, tag] => tag == "Ignored"
  | _ => false

/-- Split a character list at every `'-'` (the groups never contain `'-'`). -/
def splitDashes : List Char → List (List Char)
  | [] => [[]]
  | c :: rest =>
    if c = '-' then [] :: splitDashes rest
    else
      match splitDashes rest with
      | g :: gs => (c :: g) :: gs
      | [] => [[c]]

/-- The date language of the spec as amended: splitting the token at the
dashes must give exactly a year of four digits (at least 0001), a month of
one or two digits valued 1–12, and a day of one or two digits valued
between 1 and the month's length (leap years respected).  This is the claim
side of the refinement: `strptimeYmdL` above is the code side. -/
def specDateL (cs : List Char) : Bool :=
  match splitDashes cs with
  | [ys, ms, ds] =>
    ys.all Char.isDigit && ys.length == 4 && decide (1 ≤ digitsToNat ys) &&
      ms.all Char.isDigit && (ms.length == 1 || ms.length == 2) &&
      decide (1 ≤ digitsToNat ms) && decide (digitsToNat ms ≤ 12) &&
      ds.all Char.isDigit && (ds.length == 1 || ds.length == 2) &&
      decide (1 ≤ digitsToNat ds) &&
      decide (digitsToNat ds ≤ daysInMonth (digitsToNat ys) (digitsToNat ms))
  | _ => false

/-- `specDateL` on a string token. -/
def specLenientDate (s : String) : Bool :=
  specDateL s.toList

/-- The date language of the claim as written: strict `YYYY-MM-DD`, i.e.
exactly ten characters, the month and day zero-padded to two digits,
denoting a real calendar date. -/
def specStrictDate (s : String) : Bool :=
  match s.toList with
  | [y1, y2, y3, y4, '-', m1, m2, '-', d1, d2] =>
    y1.isDigit && y2.isDigit && y3.isDigit && y4.isDigit &&
      m1.isDigit && m2.isDigit && d1.isDigit && d2.isDigit &&
      decide (1 ≤ digitsToNat [y1, y2, y3, y4]) &&
      decide (1 ≤ digitsToNat [m1, m2]) &&
      decide (digitsToNat [m1, m2] ≤ 12) &&
      decide (1 ≤ digitsToNat [d1, d2]) &&
      decide (digitsToNat [d1, d2] ≤
        daysInMonth (digitsToNat [y1, y2, y3, y4]) (digitsToNat [m1, m2]))
  | _ => false

/-- The validator as the amended claim describes it: exactly three
whitespace tokens, a date in the (lenient) `%Y-%m-%d` language, a size in
`{S, M, L}` and a provider in `{LP, MR}` give the triple of tokens; every
other line is Invalid, carrying the original text. -/
def specValidate (line : String) : List String :=
  match pySplit line with
  | [date, size, provider] =>
    if specLenientDate date &&
        (size == "S" || size == "M" || size == "L") &&
        (provider == "LP" || provider == "MR") then [date, size, provider]
    else [line, "Ignored"]
  | _ => [line, "Ignored"]

/-- A rendered monetary amount: some prefix, then a point and exactly two
digits at the end of the string. -/
def twoDP (s : String) : Prop :=
  ∃ cs a b, s.toList = cs ++ ['.', a, b] ∧ a.isDigit ∧ b.isDigit

/-! ## Single-month kernel

`calculate_discount` reads and writes the tracking map at the single key
`year_month`.  `calcK` is the same computation on that one record;
`calculate_discount_eq_calcK` states the factorization. -/

/-- `calculate_discount`, restricted to the single month record it touches. -/
def calcK (size provider : String) (md : MonthData) :
    Option (Int × Int × MonthData) :=
  if size = "L" ∧ provider = "LP" then
    let md1 : MonthData := { md with L_LP_count := md.L_LP_count + 1 }
    if md1.L_LP_count = 3 then
      match PRICES_idx provider "L" with
      | none => none
      | some base =>
        if md1.discount + base > monthly_limit then
          let da := monthly_limit - md1.discount
          some (base - da, da, { md1 with discount := md1.discount + da })
        else
          some (0, base, { md1 with discount := md1.discount + base })
    else
      match PRICES_idx provider "L" with
      | none => none
      | some base => some (base, 0, md1)
  else if size = "S" then
    match PRICES_idx "LP" "S", PRICES_idx "MR" "S" with
    | some lpS, some mrS =>
      let lowest_price_size_s := min lpS mrS
      match PRICES_idx provider "S" with
      | none => none
      | some baseS =>
        let da := baseS - lowest_price_size_s
        if da ≠ 0 then
          if md.discount + da > monthly_limit then
            let da2 := monthly_limit - md.discount
            some (baseS - da2, da2, { md with discount := md.discount + da2 })
          else
            some (lowest_price_size_s, da, { md with discount := md.discount + da })
        else
          some (baseS, 0, md)
    | _, _ => none
  else
    match PRICES_get_default provider size with
    | none => none
    | some p => some (p, 0, md)

theorem updateTd_same (td : TrackingData) (k : String) (f : MonthData → MonthData) :
    updateTd td k f k = f (td k) := by
  simp [updateTd]

theorem updateTd_other (td : TrackingData) (k k' : String)
    (f : MonthData → MonthData) (h : k' ≠ k) : updateTd td k f k' = td k' := by
  simp [updateTd, h]



theorem updateTd_self (td : TrackingData) (k : String) :
    updateTd td k (fun _ => td k) = td := by
  funext k2
  by_cases hk : k2 = k
  · subst hk; simp [updateTd]
  · simp [updateTd, hk]

theorem updateTd_collapse (td : TrackingData) (k : String)
    (f g : MonthData → MonthData) :
    updateTd (updateTd td k f) k g = updateTd td k fun d => g (f d) := by
  funext k2
  by_cases hk : k2 = k
  · subst hk; simp [updateTd]
  · simp [updateTd, hk]

theorem map_write_back (td : TrackingData) (ym : String) (a b : Int)
    (f : MonthData → MonthData) (md : MonthData) (h : f (td ym) = md) :
    (some (a, b, updateTd td ym f) : Option (Int × Int × TrackingData)) =
      Option.map (fun r => (r.1, r.2.1, updateTd td ym fun _ => r.2.2))
        (some (a, b, md)) := by
  subst h
  refine congrArg (fun z => some (a, b, z)) ?_
  funext k
  by_cases hk : k = ym
  · subst hk; simp [updateTd]
  · simp [updateTd, hk]

theorem map_write_back_id (td : TrackingData) (ym : String) (a b : Int)
    (md : MonthData) (h : td ym = md) :
    (some (a, b, td) : Option (Int × Int × TrackingData)) =
      Option.map (fun r => (r.1, r.2.1, updateTd td ym fun _ => r.2.2))
        (some (a, b, md)) := by
  subst h
  show (some (a, b, td) : Option (Int × Int × TrackingData)) =
    some (a, b, updateTd td ym fun _ => td ym)
  exact congrArg (fun z => some (a, b, z)) (updateTd_self td ym).symm

/-- `calculate_discount` is the single-month kernel run on the record at
`year_month`, with the result written back at that key. -/
theorem calculate_discount_eq_calcK (s p ym : String) (td : TrackingData) :
    calculate_discount s p ym td =
      (calcK s p (td ym)).map
        fun r => (r.1, r.2.1, updateTd td ym fun _ => r.2.2) := by
  unfold calculate_discount calcK
  by_cases hA : s = "L" ∧ p = "LP"
  · obtain ⟨hs, hp⟩ := hA
    subst hs; subst hp
    rw [if_pos (And.intro rfl rfl), if_pos (And.intro rfl rfl)]
    simp only [updateTd_same, updateTd_collapse, PRICES_idx, PRICES_entry]
    norm_num
    rw [show (if ("L" : String) = "S" then some (150 : Int)
        else if ("L" : String) = "M" then some 490 else some 690) = some 690
      from by decide]
    by_cases h3 : (td ym).L_LP_count + 1 = 3
    · simp only [if_pos h3]
      by_cases hcl : monthly_limit < (td ym).discount + 690
      · simp only [if_pos hcl]
        refine map_write_back td ym _ _ _ _ ?_
        simp only [MonthData.mk.injEq, true_and]
        omega
      · simp only [if_neg hcl]
        exact map_write_back td ym _ _ _ _ rfl
    · simp only [if_neg h3]
      exact map_write_back td ym _ _ _ _ rfl
  · rw [if_neg hA, if_neg hA]
    by_cases hS : s = "S"
    · subst hS
      rw [if_pos rfl, if_pos rfl]
      rw [show PRICES_idx "LP" "S" = some 150 from by decide,
          show PRICES_idx "MR" "S" = some 200 from by decide]
      by_cases hp : p = "LP"
      · subst hp
        rw [show PRICES_idx "LP" "S" = some 150 from by decide]
        norm_num [show ((150 : Int) ⊓ 200) = 150 from by decide]
        exact (updateTd_self td ym).symm
      · by_cases hq : p = "MR"
        · subst hq
          rw [show PRICES_idx "MR" "S" = some 200 from by decide]
          norm_num [show ((150 : Int) ⊓ 200) = 150 from by decide]
          by_cases hcl : monthly_limit < (td ym).discount + 50
          · simp only [if_pos hcl]
            refine map_write_back td ym _ _ _ _ ?_
            simp only [MonthData.mk.injEq, true_and]
            omega
          · simp only [if_neg hcl]
            exact map_write_back td ym _ _ _ _ rfl
        · rw [show PRICES_idx p "S" = none from by
              simp [PRICES_idx, PRICES_entry, hp, hq]]
          rfl
    · rw [if_neg hS, if_neg hS]
      cases hpd : PRICES_get_default p s with
      | none => rfl
      | some v => exact map_write_back_id td ym _ _ _ rfl

/-- Evaluation of the kernel on a Large/LP shipment (Rule A). -/
theorem K_L_LP (md : MonthData) :
    calcK "L" "LP" md =
      if md.L_LP_count + 1 = 3 then
        if monthly_limit < md.discount + 690 then
          some (690 - (monthly_limit - md.discount), monthly_limit - md.discount,
            ⟨md.L_LP_count + 1, monthly_limit⟩)
        else some (0, 690, ⟨md.L_LP_count + 1, md.discount + 690⟩)
      else some (690, 0, ⟨md.L_LP_count + 1, md.discount⟩) := by
  unfold calcK
  rw [if_pos (And.intro rfl rfl),
    show PRICES_idx "LP" "L" = some 690 from by decide]
  norm_num

/-- Evaluation of the kernel on a Small/LP shipment: LP already has the
cheapest S price, so Rule B grants nothing and touches nothing. -/
theorem K_S_LP (md : MonthData) : calcK "S" "LP" md = some (150, 0, md) := by
  rfl

/-- Evaluation of the kernel on a Small/MR shipment (Rule B, candidate
`2.00 - 1.50 = 0.50`). -/
theorem K_S_MR (md : MonthData) :
    calcK "S" "MR" md =
      if monthly_limit < md.discount + 50 then
        some (200 - (monthly_limit - md.discount), monthly_limit - md.discount,
          ⟨md.L_LP_count, monthly_limit⟩)
      else some (150, 50, ⟨md.L_LP_count, md.discount + 50⟩) := by
  unfold calcK
  rw [if_neg (show ¬(("S" : String) = "L" ∧ ("MR" : String) = "LP") from by decide),
    if_pos rfl,
    show PRICES_idx "LP" "S" = some 150 from by decide,
    show PRICES_idx "MR" "S" = some 200 from by decide]
  norm_num [show ((150 : Int) ⊓ 200) = 150 from by decide]

/-- Evaluation of the kernel when no rule applies (Rule C). -/
theorem K_other (s p : String) (md : MonthData)
    (hp : p = "LP" ∨ p = "MR") (h1 : ¬(s = "L" ∧ p = "LP")) (h2 : s ≠ "S") :
    calcK s p md = some ((PRICES_entry p s).getD 0, 0, md) := by
  unfold calcK
  rw [if_neg h1, if_neg h2,
    show PRICES_get_default p s = some ((PRICES_entry p s).getD 0) from by
      rw [PRICES_get_default, if_pos hp]]

/-- The kernel succeeds on every valid size/provider pair and respects the
monthly budget: the new discount level is the old plus the grant, the
Large/LP counter never decreases, the grant is non-negative and keeps the
level within `monthly_limit`, and a zero grant charges the base price. -/
theorem calcK_total (s p : String) (md : MonthData)
    (hs : s = "S" ∨ s = "M" ∨ s = "L") (hp : p = "LP" ∨ p = "MR") :
    ∃ np da md', calcK s p md = some (np, da, md') ∧
      md'.discount = md.discount + da ∧
      md.L_LP_count ≤ md'.L_LP_count ∧
      (0 ≤ md.discount → md.discount ≤ monthly_limit →
        0 ≤ da ∧ md'.discount ≤ monthly_limit) ∧
      (da = 0 → np = (PRICES_entry p s).getD 0) := by
  have hlim : monthly_limit = 1000 := rfl
  rcases hp with hp | hp <;> subst hp
  · rcases hs with hs | hs | hs <;> subst hs
    · exact ⟨150, 0, md, K_S_LP md, by omega, le_refl _,
        fun _ h2 => ⟨le_refl 0, h2⟩, fun _ => rfl⟩
    · refine ⟨490, 0, md, ?_, by omega, le_refl _,
        fun _ h2 => ⟨le_refl 0, h2⟩, fun _ => rfl⟩
      exact K_other "M" "LP" md (Or.inl rfl) (by decide) (by decide)
    · rw [K_L_LP]
      split_ifs with h1 h2
      · refine ⟨_, _, _, rfl, ?_, ?_, ?_, ?_⟩
        · dsimp only
          omega
        · dsimp only
          omega
        · intro hb1 hb2
          dsimp only
          omega
        · intro h0
          rw [show ((PRICES_entry "LP" "L").getD 0 : Int) = 690 from rfl]
          omega
      · refine ⟨_, _, _, rfl, ?_, ?_, ?_, ?_⟩
        · dsimp only
        · dsimp only
          omega
        · intro hb1 hb2
          dsimp only
          omega
        · intro h0
          omega
      · refine ⟨_, _, _, rfl, ?_, ?_, ?_, ?_⟩
        · dsimp only
          omega
        · dsimp only
          omega
        · intro hb1 hb2
          dsimp only
          omega
        · intro h0
          rfl
  · rcases hs with hs | hs | hs <;> subst hs
    · rw [K_S_MR]
      split_ifs with h1
      · refine ⟨_, _, _, rfl, ?_, ?_, ?_, ?_⟩
        · dsimp only
          omega
        · dsimp only
          omega
        · intro hb1 hb2
          dsimp only
          omega
        · intro h0
          rw [show ((PRICES_entry "MR" "S").getD 0 : Int) = 200 from rfl]
          omega
      · refine ⟨_, _, _, rfl, ?_, ?_, ?_, ?_⟩
        · dsimp only
        · dsimp only
          omega
        · intro hb1 hb2
          dsimp only
          omega
        · intro h0
          omega
    · refine ⟨300, 0, md, ?_, by omega, le_refl _,
        fun _ h2 => ⟨le_refl 0, h2⟩, fun _ => rfl⟩
      exact K_other "M" "MR" md (Or.inr rfl) (by decide) (by decide)
    · refine ⟨400, 0, md, ?_, by omega, le_refl _,
        fun _ h2 => ⟨le_refl 0, h2⟩, fun _ => rfl⟩
      exact K_other "L" "MR" md (Or.inr rfl) (by decide) (by decide)

theorem getD_PRICES (s p : String) (hp : p = "LP" ∨ p = "MR") :
    PRICES_get_default p s = some ((PRICES_entry p s).getD 0) := by
  rw [PRICES_get_default, if_pos hp]

/-- The two shapes a `validEntry` can have. -/
theorem validEntry_cases (e : List String) (h : validEntry e = true) :
    (∃ t, e = [t, "Ignored"]) ∨
      ∃ d s p, e = [d, s, p] ∧ (strptimeYmd d).isSome = true ∧
        (s = "S" ∨ s = "M" ∨ s = "L") ∧ (p = "LP" ∨ p = "MR") := by
  rcases e with - | ⟨a, - | ⟨b, - | ⟨c, - | ⟨d, rest⟩⟩⟩⟩
  · simp [validEntry] at h
  · simp [validEntry] at h
  · simp only [validEntry, beq_iff_eq] at h
    exact Or.inl ⟨a, by rw [h]⟩
  · simp only [validEntry, Bool.and_eq_true, Bool.or_eq_true, beq_iff_eq] at h
    exact Or.inr ⟨a, b, c, rfl, h.1.1, by tauto, by tauto⟩
  · simp [validEntry] at h

/-- Every value `check_transaction` returns is a `validEntry`. -/
theorem check_transaction_valid (line : String) :
    validEntry (check_transaction line) = true := by
  unfold check_transaction
  rcases hsp : pySplit line with - | ⟨a, - | ⟨b, - | ⟨c, - | ⟨d, rest⟩⟩⟩⟩
  · simp [validEntry]
  · simp [validEntry]
  · simp [validEntry]
  · dsimp only
    split_ifs with h1 h2
    · simp [validEntry]
    · simp [validEntry]
    · push_neg at h2
      obtain ⟨hb, hc⟩ := h2
      simp only [List.mem_cons, List.not_mem_nil, or_false] at hb hc
      simp only [validEntry, Bool.and_eq_true, Bool.or_eq_true, beq_iff_eq]
      refine ⟨⟨?_, by tauto⟩, by tauto⟩
      cases ho : strptimeYmd a with
      | none => rw [ho] at h1; simp at h1
      | some v => rfl
  · simp [validEntry]

theorem processLoop_cons_ignored (entry : List String)
    (rest : List (List String)) (td : TrackingData)
    (h : entry.getLast? = some "Ignored") :
    processLoop (entry :: rest) td = (processLoop rest td).map
      fun r => (String.intercalate " " (entry.map pyStrip) :: r.1, r.2) := by
  simp only [processLoop, if_pos h]

theorem discountTrace_cons_ignored (entry : List String)
    (rest : List (List String)) (td : TrackingData)
    (h : entry.getLast? = some "Ignored") :
    discountTrace (entry :: rest) td = discountTrace rest td := by
  simp only [discountTrace, if_pos h]

/-- One loop iteration on a Valid triple: the kernel runs on the record of
the transaction's month, its result is written back at that key, and one
rendered line (and one trace pair) is emitted. -/
theorem processLoop_cons_valid (d s p : String) (rest : List (List String))
    (td : TrackingData)
    (hs : s = "S" ∨ s = "M" ∨ s = "L") (hp : p = "LP" ∨ p = "MR") :
    ∃ np da md', calcK s p (td (pyTake d 7)) = some (np, da, md') ∧
      md'.discount = (td (pyTake d 7)).discount + da ∧
      (td (pyTake d 7)).L_LP_count ≤ md'.L_LP_count ∧
      (0 ≤ (td (pyTake d 7)).discount →
        (td (pyTake d 7)).discount ≤ monthly_limit →
        0 ≤ da ∧ md'.discount ≤ monthly_limit) ∧
      (da = 0 → np = (PRICES_entry p s).getD 0) ∧
      processLoop ([d, s, p] :: rest) td =
        (processLoop rest (updateTd td (pyTake d 7) fun _ => md')).map
          (fun r => (renderLine d s p ((PRICES_entry p s).getD 0) np da :: r.1,
            r.2)) ∧
      discountTrace ([d, s, p] :: rest) td =
        (discountTrace rest (updateTd td (pyTake d 7) fun _ => md')).map
          fun t => (pyTake d 7, da) :: t := by
  obtain ⟨np, da, md', hK, k1, k2, k3, k4⟩ :=
    calcK_total s p (td (pyTake d 7)) hs hp
  have hig : ¬([d, s, p].getLast? = some "Ignored") := by
    rcases hp with hp | hp <;> subst hp <;> simp
  refine ⟨np, da, md', hK, k1, k2, k3, k4, ?_, ?_⟩
  · simp only [processLoop, if_neg hig]
    rw [getD_PRICES s p hp, calculate_discount_eq_calcK, hK]
    rfl
  · simp only [discountTrace, if_neg hig]
    rw [getD_PRICES s p hp, calculate_discount_eq_calcK, hK]
    rfl

/-- Master invariant of the loop on validator output: the loop and the
trace both succeed, one line is emitted per entry, and per month the final
discount level is the initial level plus the trace's grants for that month,
the Large/LP counter never decreases, and a level within `[0, limit]` stays
within `[0, limit]` and never decreases. -/
theorem processLoop_master (ts : List (List String)) :
    ∀ td : TrackingData, (∀ e ∈ ts, validEntry e = true) →
    ∃ out trace td',
      processLoop ts td = some (out, td') ∧
      discountTrace ts td = some trace ∧
      out.length = ts.length ∧
      ∀ k, (td' k).discount = (td k).discount +
            ((trace.filter fun x => x.1 == k).map Prod.snd).sum ∧
        (td k).L_LP_count ≤ (td' k).L_LP_count ∧
        (0 ≤ (td k).discount → (td k).discount ≤ monthly_limit →
          0 ≤ (td' k).discount ∧ (td' k).discount ≤ monthly_limit ∧
          (td k).discount ≤ (td' k).discount) := by
  induction ts with
  | nil =>
    intro td _
    exact ⟨[], [], td, rfl, rfl, rfl,
      fun k => ⟨by simp, le_refl _, fun h1 h2 => ⟨h1, h2, le_refl _⟩⟩⟩
  | cons e ts ih =>
    intro td h
    have he := h e (List.mem_cons_self e ts)
    have hrest : ∀ x ∈ ts, validEntry x = true :=
      fun x hx => h x (List.mem_cons_of_mem e hx)
    rcases validEntry_cases e he with ⟨t, rfl⟩ | ⟨d, s, p, rfl, hdt, hs, hp⟩
    · obtain ⟨out, trace, td', h1, h2, h3, h4⟩ := ih td hrest
      have hig : ([t, "Ignored"].getLast? = some "Ignored") := by simp
      refine ⟨String.intercalate " " ([t, "Ignored"].map pyStrip) :: out,
        trace, td', ?_, ?_, ?_, h4⟩
      · rw [processLoop_cons_ignored _ _ _ hig, h1]
        rfl
      · rw [discountTrace_cons_ignored _ _ _ hig]
        exact h2
      · simp [h3]
    · obtain ⟨np, da, md', hK, k1, k2, k3, k4, hPL, hDT⟩ :=
        processLoop_cons_valid d s p ts td hs hp
      obtain ⟨out, trace, td', h1, h2, h3, h4⟩ :=
        ih (updateTd td (pyTake d 7) fun _ => md') hrest
      refine ⟨renderLine d s p ((PRICES_entry p s).getD 0) np da :: out,
        (pyTake d 7, da) :: trace, td', ?_, ?_, ?_, ?_⟩
      · rw [hPL, h1]
        rfl
      · rw [hDT, h2]
        rfl
      · simpa using congrArg Nat.succ h3
      · intro k
        obtain ⟨e1, e2, e3⟩ := h4 k
        by_cases hk : k = pyTake d 7
        · subst hk
          rw [updateTd_same] at e1 e2 e3
          have hfil : ((pyTake d 7, da) :: trace).filter
                (fun x => x.1 == pyTake d 7) =
              (pyTake d 7, da) :: trace.filter fun x => x.1 == pyTake d 7 := by
            simp [List.filter_cons]
          rw [hfil]
          simp only [List.map_cons, List.sum_cons]
          refine ⟨by omega, by omega, ?_⟩
          intro hb1 hb2
          obtain ⟨kda, kbd⟩ := k3 hb1 hb2
          obtain ⟨f1, f2, f3⟩ := e3 (by omega) kbd
          exact ⟨by omega, f2, by omega⟩
        · rw [updateTd_other _ _ _ _ hk] at e1 e2 e3
          have hfil : ((pyTake d 7, da) :: trace).filter (fun x => x.1 == k) =
              trace.filter fun x => x.1 == k := by
            simp [List.filter_cons, Ne.symm hk]
          rw [hfil]
          exact ⟨e1, e2, e3⟩

/-- The loop over a concatenation is the loop over the first part followed
by the loop over the second from the intermediate state. -/
theorem processLoop_append (A B : List (List String)) (td : TrackingData) :
    processLoop (A ++ B) td = (processLoop A td).bind fun r =>
      (processLoop B r.2).map fun r2 => (r.1 ++ r2.1, r2.2) := by
  induction A generalizing td with
  | nil =>
    simp only [List.nil_append, processLoop, Option.some_bind]
    cases processLoop B td with
    | none => rfl
    | some r2 => rfl
  | cons e A ih =>
    by_cases hig : e.getLast? = some "Ignored"
    · rw [List.cons_append, processLoop_cons_ignored _ _ _ hig,
        processLoop_cons_ignored _ _ _ hig, ih]
      cases processLoop A td with
      | none => rfl
      | some r => simp [Option.map_map, Function.comp_def]
    · rcases e with - | ⟨a, - | ⟨b, - | ⟨c, - | ⟨d, rest⟩⟩⟩⟩ <;>
        simp only [List.cons_append, processLoop, if_neg hig]
      · exact ih td
      · exact ih td
      · exact ih td
      · cases PRICES_get_default c b with
        | none => rfl
        | some pr =>
          cases calculate_discount b c (pyTake a 7) td with
          | none => rfl
          | some r3 =>
            obtain ⟨np, da, td2⟩ := r3
            dsimp only
            simp only [List.append_eq]
            rw [ih]
            cases processLoop A td2 with
            | none => rfl
            | some r => simp [Option.map_map, Function.comp_def]
      · exact ih td

theorem digitChar_isDigit : ∀ d < 10, (Nat.digitChar d).isDigit = true := by
  decide

theorem twoDP_formatCents (n : Int) : twoDP (formatCents n) := by
  refine ⟨((if n < 0 then "-" else "") ++ toString (n.natAbs / 100)).data,
    Nat.digitChar (n.natAbs % 100 / 10), Nat.digitChar (n.natAbs % 100 % 10),
    ?_, ?_, ?_⟩
  · show (formatCents n).data = _
    rw [formatCents]
    simp only [String.data_append]
    simp [List.append_assoc]
  · exact digitChar_isDigit _ (by omega)
  · exact digitChar_isDigit _ (by omega)

/-- C7: for every input sequence of raw lines, validating then processing
succeeds (no line aborts the run) and yields exactly one output line per
input line, in input order; moreover each single validator output emits
exactly one line from any state, so the loop's silent fall-through branch
is unreachable for validator output. -/
theorem C7_one_line_per_input (lines : List String) :
    (∃ out, process_transactions (validate_transactions lines) = some out ∧
      out.length = lines.length) ∧
    ∀ line td0, ∃ l td1,
      processLoop [check_transaction line] td0 = some ([l], td1) := by
  constructor
  · obtain ⟨out, trace, td', h1, h2, h3, h4⟩ :=
      processLoop_master (validate_transactions lines) initialTracking
        (by
          intro e he
          obtain ⟨line, -, rfl⟩ := List.mem_map.mp he
          exact check_transaction_valid line)
    refine ⟨out, ?_, ?_⟩
    · rw [process_transactions, h1]
      rfl
    · rw [h3, validate_transactions, List.length_map]
  · intro line td0
    obtain ⟨out, trace, td', h1, h2, h3, h4⟩ :=
      processLoop_master [check_transaction line] td0
        (by
          intro e he
          simp only [List.mem_singleton] at he
          subst he
          exact check_transaction_valid line)
    obtain ⟨l, rfl⟩ := List.length_eq_one.mp h3
    exact ⟨l, td', h1⟩

/-- C3: over any run on validator output, each month's `discount` level is
0 at the start, non-decreasing along the pass (here: from any prefix's
level to the final level), never exceeds `monthly_limit`, and the sum of
the discounts granted to that month's priced transactions equals the final
level, hence also never exceeds `monthly_limit`. -/
theorem C3_monthly_budget (ts : List (List String))
    (h : ∀ e ∈ ts, validEntry e = true) (k : String) :
    ∃ out td trace,
      processLoop ts initialTracking = some (out, td) ∧
      discountTrace ts initialTracking = some trace ∧
      (td k).discount ≤ monthly_limit ∧
      ((trace.filter fun x => x.1 == k).map Prod.snd).sum = (td k).discount ∧
      ((trace.filter fun x => x.1 == k).map Prod.snd).sum ≤ monthly_limit ∧
      ∀ A B, ts = A ++ B →
        ∃ outA tdA, processLoop A initialTracking = some (outA, tdA) ∧
          0 ≤ (tdA k).discount ∧ (tdA k).discount ≤ (td k).discount := by
  obtain ⟨out, trace, td', h1, h2, h3, h4⟩ :=
    processLoop_master ts initialTracking h
  obtain ⟨e1, e2, e3⟩ := h4 k
  have hinit : (initialTracking k).discount = 0 := rfl
  obtain ⟨b1, b2, b3⟩ := e3 (by omega) (by rw [hinit]; decide)
  refine ⟨out, td', trace, h1, h2, b2, by omega, by omega, ?_⟩
  intro A B hAB
  subst hAB
  have hA : ∀ e ∈ A, validEntry e = true :=
    fun e he => h e (List.mem_append_left B he)
  have hB : ∀ e ∈ B, validEntry e = true :=
    fun e he => h e (List.mem_append_right A he)
  obtain ⟨outA, traceA, tdA, g1, g2, g3, g4⟩ :=
    processLoop_master A initialTracking hA
  obtain ⟨f1, f2, f3⟩ := g4 k
  obtain ⟨c1, c2, c3⟩ := f3 (by omega) (by rw [hinit]; decide)
  obtain ⟨outB, traceB, tdB, j1, j2, j3, j4⟩ := processLoop_master B tdA hB
  obtain ⟨i1, i2, i3⟩ := j4 k
  obtain ⟨d1, d2, d3⟩ := i3 c1 c2
  have : processLoop (A ++ B) initialTracking = some (outA ++ outB, tdB) := by
    rw [processLoop_append, g1, Option.some_bind, j1]
    rfl
  rw [h1] at this
  injection this with h5
  have htd : td' = tdB := congrArg Prod.snd h5
  exact ⟨outA, tdA, g1, c1, by rw [htd]; omega⟩

/-- Witness for C3 at a concrete one-transaction input. -/
theorem C3_monthly_budget_witness :
    (∀ e ∈ [["2024-08-09", "L", "LP"]], validEntry e = true) ∧
    ∃ out td trace,
      processLoop [["2024-08-09", "L", "LP"]] initialTracking =
        some (out, td) ∧
      discountTrace [["2024-08-09", "L", "LP"]] initialTracking = some trace ∧
      (td "2024-08").discount ≤ monthly_limit ∧
      ((trace.filter fun x => x.1 == "2024-08").map Prod.snd).sum =
        (td "2024-08").discount ∧
      ((trace.filter fun x => x.1 == "2024-08").map Prod.snd).sum ≤
        monthly_limit ∧
      ∀ A B, [["2024-08-09", "L", "LP"]] = A ++ B →
        ∃ outA tdA, processLoop A initialTracking = some (outA, tdA) ∧
          0 ≤ (tdA "2024-08").discount ∧
          (tdA "2024-08").discount ≤ (td "2024-08").discount :=
  ⟨by decide, C3_monthly_budget _ (by decide) "2024-08"⟩

/-- C1 (counterexample): the Invalid line `"bad line"` is not echoed
verbatim — the pipeline appends the tag `" Ignored"` to it. -/
theorem C1_counterexample :
    process_transactions (validate_transactions ["bad line"]) =
        some ["bad line Ignored"] ∧
      process_transactions (validate_transactions ["bad line"]) ≠
        some ["bad line"] := by
  exact ⟨by decide, by decide⟩

/-- C1 (amended): the output line of an Invalid input line is the original
text, stripped of outer whitespace, followed by one space and the literal
tag `Ignored` — not the verbatim original. -/
theorem C1_ignored_suffix (line : String) (rest : List (List String))
    (td : TrackingData) (h : check_transaction line = [line, "Ignored"]) :
    processLoop (check_transaction line :: rest) td =
      (processLoop rest td).map
        fun r => ((pyStrip line ++ " " ++ "Ignored") :: r.1, r.2) := by
  rw [h, processLoop_cons_ignored _ _ _ (by simp)]
  rfl

/-- Witness for the amended C1 on the concrete line `"bad line"`. -/
theorem C1_ignored_suffix_witness :
    check_transaction "bad line" = ["bad line", "Ignored"] ∧
    processLoop (check_transaction "bad line" :: []) initialTracking =
      (processLoop [] initialTracking).map
        fun r => ((pyStrip "bad line" ++ " " ++ "Ignored") :: r.1, r.2) :=
  ⟨by decide, C1_ignored_suffix "bad line" [] initialTracking (by decide)⟩

/-- C4: among a month's Large/LP shipments, a shipment whose incremented
counter is not 3 is charged the full base price 6.90 with zero discount
(and only the counter changes), while the one that brings the counter to
exactly 3 receives a positive discount whenever budget is left — the full
6.90 with price 0.00 when the whole candidate fits the budget. -/
theorem C4_third_shipment_only (ym : String) (td : TrackingData) :
    ((td ym).L_LP_count + 1 ≠ 3 →
      ∃ td2, calculate_discount "L" "LP" ym td = some (690, 0, td2) ∧
        (td2 ym).L_LP_count = (td ym).L_LP_count + 1 ∧
        (td2 ym).discount = (td ym).discount) ∧
    ((td ym).L_LP_count + 1 = 3 → (td ym).discount < monthly_limit →
      0 ≤ (td ym).discount →
      ∃ np da td2, calculate_discount "L" "LP" ym td = some (np, da, td2) ∧
        0 < da ∧
        ((td ym).discount + 690 ≤ monthly_limit → np = 0 ∧ da = 690)) := by
  constructor
  · intro h3
    have hK : calcK "L" "LP" (td ym) =
        some (690, 0, ⟨(td ym).L_LP_count + 1, (td ym).discount⟩) := by
      rw [K_L_LP, if_neg h3]
    refine ⟨_, by rw [calculate_discount_eq_calcK, hK]; rfl, ?_, ?_⟩
    · rw [updateTd_same]
    · rw [updateTd_same]
  · intro h3 hlt hge
    by_cases hcl : monthly_limit < (td ym).discount + 690
    · have hK : calcK "L" "LP" (td ym) =
          some (690 - (monthly_limit - (td ym).discount),
            monthly_limit - (td ym).discount,
            ⟨(td ym).L_LP_count + 1, monthly_limit⟩) := by
        rw [K_L_LP, if_pos h3, if_pos hcl]
      exact ⟨690 - (monthly_limit - (td ym).discount),
        monthly_limit - (td ym).discount, _,
        by rw [calculate_discount_eq_calcK, hK]; rfl,
        by omega, fun hc => absurd hcl (by omega)⟩
    · have hK : calcK "L" "LP" (td ym) =
          some (0, 690, ⟨(td ym).L_LP_count + 1, (td ym).discount + 690⟩) := by
        rw [K_L_LP, if_pos h3, if_neg hcl]
      exact ⟨0, 690, _, by rw [calculate_discount_eq_calcK, hK]; rfl,
        by omega, fun _ => ⟨rfl, rfl⟩⟩

/-- Witness for C4: a first Large/LP shipment (counter 0) and a third one
(counter 2, fresh budget). -/
theorem C4_third_shipment_only_witness :
    (∃ td2, calculate_discount "L" "LP" "2024-08" initialTracking =
      some (690, 0, td2) ∧
      (td2 "2024-08").L_LP_count =
        (initialTracking "2024-08").L_LP_count + 1 ∧
      (td2 "2024-08").discount = (initialTracking "2024-08").discount) ∧
    ∃ np da td2,
      calculate_discount "L" "LP" "2024-08"
        (fun _ => (⟨2, 0⟩ : MonthData)) = some (np, da, td2) ∧
      0 < da ∧
      (((fun _ => (⟨2, 0⟩ : MonthData)) "2024-08").discount + 690 ≤
          monthly_limit → np = 0 ∧ da = 690) :=
  ⟨(C4_third_shipment_only "2024-08" initialTracking).1 (by decide),
    (C4_third_shipment_only "2024-08" (fun _ => ⟨2, 0⟩)).2
      (by decide) (by decide) (by decide)⟩

/-- C5: when Rule A (third Large/LP) or Rule B (Small/MR, candidate 0.50)
fires with a candidate that overshoots the budget, exactly the remaining
budget `10.00 - discount_used` is granted, the level becomes exactly
10.00, and the charge is the base price minus the grant; otherwise the
full candidate is granted, the level rises by the candidate, and the
charge is 0.00 for Rule A and the cheapest S price for Rule B. -/
theorem C5_cap_clamp (ym : String) (td : TrackingData) :
    ((td ym).L_LP_count + 1 = 3 →
      (monthly_limit < (td ym).discount + 690 →
        ∃ td2, calculate_discount "L" "LP" ym td =
          some (690 - (monthly_limit - (td ym).discount),
            monthly_limit - (td ym).discount, td2) ∧
          (td2 ym).discount = monthly_limit) ∧
      ((td ym).discount + 690 ≤ monthly_limit →
        ∃ td2, calculate_discount "L" "LP" ym td = some (0, 690, td2) ∧
          (td2 ym).discount = (td ym).discount + 690)) ∧
    (monthly_limit < (td ym).discount + 50 →
      ∃ td2, calculate_discount "S" "MR" ym td =
        some (200 - (monthly_limit - (td ym).discount),
          monthly_limit - (td ym).discount, td2) ∧
        (td2 ym).discount = monthly_limit) ∧
    ((td ym).discount + 50 ≤ monthly_limit →
      ∃ td2, calculate_discount "S" "MR" ym td = some (150, 50, td2) ∧
        (td2 ym).discount = (td ym).discount + 50) := by
  refine ⟨?_, ?_, ?_⟩
  · intro h3
    constructor
    · intro hcl
      have hK : calcK "L" "LP" (td ym) =
          some (690 - (monthly_limit - (td ym).discount),
            monthly_limit - (td ym).discount,
            ⟨(td ym).L_LP_count + 1, monthly_limit⟩) := by
        rw [K_L_LP, if_pos h3, if_pos hcl]
      refine ⟨_, by rw [calculate_discount_eq_calcK, hK]; rfl, ?_⟩
      rw [updateTd_same]
    · intro hle
      have hK : calcK "L" "LP" (td ym) =
          some (0, 690, ⟨(td ym).L_LP_count + 1, (td ym).discount + 690⟩) := by
        rw [K_L_LP, if_pos h3, if_neg (by omega)]
      refine ⟨_, by rw [calculate_discount_eq_calcK, hK]; rfl, ?_⟩
      rw [updateTd_same]
  · intro hcl
    have hK : calcK "S" "MR" (td ym) =
        some (200 - (monthly_limit - (td ym).discount),
          monthly_limit - (td ym).discount,
          ⟨(td ym).L_LP_count, monthly_limit⟩) := by
      rw [K_S_MR, if_pos hcl]
    refine ⟨_, by rw [calculate_discount_eq_calcK, hK]; rfl, ?_⟩
    rw [updateTd_same]
  · intro hle
    have hK : calcK "S" "MR" (td ym) =
        some (150, 50, ⟨(td ym).L_LP_count, (td ym).discount + 50⟩) := by
      rw [K_S_MR, if_neg (by omega)]
    refine ⟨_, by rw [calculate_discount_eq_calcK, hK]; rfl, ?_⟩
    rw [updateTd_same]

/-- Witness for C5: the clamp on a third Large/LP at level 8.00, and the
unclamped Rule B grant from a fresh month. -/
theorem C5_cap_clamp_witness :
    (∃ td2, calculate_discount "L" "LP" "2024-08"
        (fun _ => (⟨2, 800⟩ : MonthData)) =
      some (690 - (monthly_limit - 800), monthly_limit - 800, td2) ∧
      (td2 "2024-08").discount = monthly_limit) ∧
    ∃ td2, calculate_discount "S" "MR" "2024-08" initialTracking =
      some (150, 50, td2) ∧
      (td2 "2024-08").discount =
        (initialTracking "2024-08").discount + 50 :=
  ⟨((C5_cap_clamp "2024-08" (fun _ => ⟨2, 800⟩)).1 (by decide)).1 (by decide),
    (C5_cap_clamp "2024-08" initialTracking).2.2 (by decide)⟩

/-- C6: a Small shipment's candidate discount is the provider's S price
minus the cheapest S price (LP's 1.50); when the provider already offers
the cheapest S price (LP), the discount is 0, the charge is the base
price, and the tracking state — in particular the month's budget — is
completely untouched. -/
theorem C6_small_matching (ym : String) (td : TrackingData) :
    calculate_discount "S" "LP" ym td = some (150, 0, td) ∧
    (150 : Int) = min 150 200 ∧
    ((td ym).discount + (200 - min 150 200) ≤ monthly_limit →
      ∃ td2, calculate_discount "S" "MR" ym td =
        some (min 150 200, 200 - min 150 200, td2) ∧
        (td2 ym).discount = (td ym).discount + (200 - min 150 200)) := by
  refine ⟨?_, by decide, ?_⟩
  · rw [calculate_discount_eq_calcK, K_S_LP]
    exact (map_write_back_id td ym 150 0 (td ym) rfl).symm
  · simp only [show ((min 150 200 : Int)) = 150 from by decide]
    norm_num
    intro hle
    have hK : calcK "S" "MR" (td ym) =
        some (150, 50, ⟨(td ym).L_LP_count, (td ym).discount + 50⟩) := by
      rw [K_S_MR, if_neg (by omega)]
    refine ⟨_, by rw [calculate_discount_eq_calcK, hK]; rfl, ?_⟩
    rw [updateTd_same]

/-- Witness for C6 at a fresh month. -/
theorem C6_small_matching_witness :
    calculate_discount "S" "LP" "2024-08" initialTracking =
      some (150, 0, initialTracking) ∧
    ∃ td2, calculate_discount "S" "MR" "2024-08" initialTracking =
      some (min 150 200, 200 - min 150 200, td2) ∧
      (td2 "2024-08").discount =
        (initialTracking "2024-08").discount + (200 - min 150 200) :=
  ⟨(C6_small_matching "2024-08" initialTracking).1,
    (C6_small_matching "2024-08" initialTracking).2.2 (by decide)⟩

/-- C10: when the third Large/LP shipment of a month arrives with the
budget already exhausted (`discount_used = 10.00`), it is charged the full
base 6.90 with a grant of 0, its output line ends in the dash, the
counter still advances to 3, and — since any Large/LP shipment at a
counter of 3 or more is charged full price with zero discount while still
advancing the counter — Rule A can never grant a discount in that month
afterwards. -/
theorem C10_exhausted_budget_third (ym : String) (td : TrackingData)
    (h2 : (td ym).L_LP_count = 2) (hd : (td ym).discount = monthly_limit) :
    (∃ np da td2, calculate_discount "L" "LP" ym td = some (np, da, td2) ∧
      np = 690 ∧ da = 0 ∧ (td2 ym).L_LP_count = 3 ∧
      (td2 ym).discount = monthly_limit) ∧
    (∀ d rest, pyTake d 7 = ym →
      ∃ td2, processLoop ([d, "L", "LP"] :: rest) td =
        (processLoop rest td2).map
          fun r =>
            ((d ++ " " ++ "L" ++ " " ++ "LP" ++ " " ++ "6.90" ++ " -")
              :: r.1, r.2)) ∧
    ∀ td3, 3 ≤ (td3 ym).L_LP_count →
      ∃ td4, calculate_discount "L" "LP" ym td3 = some (690, 0, td4) ∧
        (td4 ym).L_LP_count = (td3 ym).L_LP_count + 1 := by
  have hK3 : calcK "L" "LP" (td ym) = some (690, 0, ⟨3, monthly_limit⟩) := by
    rw [K_L_LP, h2, hd, if_pos rfl,
      if_pos (show monthly_limit < monthly_limit + 690 by omega)]
    simp only [Option.some.injEq, Prod.mk.injEq, MonthData.mk.injEq]
    norm_num
  have hc : calculate_discount "L" "LP" ym td =
      some (690, 0, updateTd td ym fun _ => ⟨3, monthly_limit⟩) := by
    rw [calculate_discount_eq_calcK, hK3]
    rfl
  refine ⟨⟨690, 0, _, hc, rfl, rfl, by rw [updateTd_same], by rw [updateTd_same]⟩,
    ?_, ?_⟩
  · intro d rest hmonth
    refine ⟨updateTd td ym fun _ => ⟨3, monthly_limit⟩, ?_⟩
    have hig : ¬([d, "L", "LP"].getLast? = some "Ignored") := by simp
    simp only [processLoop, if_neg hig]
    rw [hmonth, hc, show PRICES_get_default "LP" "L" = some 690 from rfl]
    rfl
  · intro td3 h3
    have hK4 : calcK "L" "LP" (td3 ym) =
        some (690, 0, ⟨(td3 ym).L_LP_count + 1, (td3 ym).discount⟩) := by
      rw [K_L_LP, if_neg (by omega)]
    refine ⟨_, by rw [calculate_discount_eq_calcK, hK4]; rfl, ?_⟩
    rw [updateTd_same]

/-- Witness for C10: a month with counter 2 and the budget fully used. -/
theorem C10_exhausted_budget_third_witness :
    ((fun _ => (⟨2, 1000⟩ : MonthData)) "2024-08").L_LP_count = 2 ∧
    (∃ np da td2, calculate_discount "L" "LP" "2024-08"
        (fun _ => (⟨2, 1000⟩ : MonthData)) = some (np, da, td2) ∧
      np = 690 ∧ da = 0 ∧ (td2 "2024-08").L_LP_count = 3 ∧
      (td2 "2024-08").discount = monthly_limit) ∧
    (∀ d rest, pyTake d 7 = "2024-08" →
      ∃ td2, processLoop ([d, "L", "LP"] :: rest)
          (fun _ => (⟨2, 1000⟩ : MonthData)) =
        (processLoop rest td2).map
          fun r =>
            ((d ++ " " ++ "L" ++ " " ++ "LP" ++ " " ++ "6.90" ++ " -")
              :: r.1, r.2)) ∧
    ∀ td3, 3 ≤ (td3 "2024-08").L_LP_count →
      ∃ td4, calculate_discount "L" "LP" "2024-08" td3 = some (690, 0, td4) ∧
        (td4 "2024-08").L_LP_count = (td3 "2024-08").L_LP_count + 1 :=
  ⟨by decide,
    C10_exhausted_budget_third "2024-08" (fun _ => ⟨2, 1000⟩)
      (by decide) (by decide)⟩

theorem digit_ne_dash (c : Char) (h : c.isDigit = true) : ¬(c = '-') := by
  intro hc
  subst hc
  exact absurd h (by decide)

theorem splitDashes_ne_nil (cs : List Char) : splitDashes cs ≠ [] := by
  cases cs with
  | nil => simp [splitDashes]
  | cons c rest =>
    rw [splitDashes]
    split_ifs
    · simp
    · cases hsd : splitDashes rest <;> simp

theorem splitDashes_singleton (a : List Char) (h : ∀ c ∈ a, ¬(c = '-')) :
    splitDashes a = [a] := by
  induction a with
  | nil => rfl
  | cons c rest ih =>
    rw [splitDashes, if_neg (h c (List.mem_cons_self c rest)),
      ih fun x hx => h x (List.mem_cons_of_mem c hx)]

theorem splitDashes_group (a b : List Char) (h : ∀ c ∈ a, ¬(c = '-')) :
    splitDashes (a ++ '-' :: b) = a :: splitDashes b := by
  induction a with
  | nil =>
    rw [List.nil_append, splitDashes, if_pos rfl]
  | cons c rest ih =>
    rw [List.cons_append, splitDashes,
      if_neg (h c (List.mem_cons_self c rest)),
      ih fun x hx => h x (List.mem_cons_of_mem c hx)]

theorem splitDashes_no_dash (cs : List Char) :
    ∀ g ∈ splitDashes cs, ∀ c ∈ g, ¬(c = '-') := by
  induction cs with
  | nil =>
    intro g hg
    simp only [splitDashes, List.mem_singleton] at hg
    subst hg
    simp
  | cons c rest ih =>
    intro g hg
    rw [splitDashes] at hg
    by_cases hc : c = '-'
    · rw [if_pos hc] at hg
      rcases List.mem_cons.mp hg with rfl | hg2
      · simp
      · exact ih g hg2
    · rw [if_neg hc] at hg
      cases hsd : splitDashes rest with
      | nil => exact absurd hsd (splitDashes_ne_nil rest)
      | cons g0 gs =>
        rw [hsd] at hg
        rcases List.mem_cons.mp hg with rfl | hg2
        · intro x hx
          rcases List.mem_cons.mp hx with rfl | hx2
          · exact hc
          · exact ih g0 (by rw [hsd]; exact List.mem_cons_self g0 gs) x hx2
        · exact ih g (by rw [hsd]; exact List.mem_cons_of_mem g0 hg2)

theorem splitDashes_eq_one (cs b : List Char) (h : splitDashes cs = [b]) :
    cs = b := by
  induction cs generalizing b with
  | nil =>
    simp only [splitDashes, List.cons.injEq, and_true] at h
    exact h
  | cons c rest ih =>
    rw [splitDashes] at h
    by_cases hc : c = '-'
    · rw [if_pos hc] at h
      injection h with h1 h2
      exact absurd h2 (splitDashes_ne_nil rest)
    · rw [if_neg hc] at h
      cases hsd : splitDashes rest with
      | nil => exact absurd hsd (splitDashes_ne_nil rest)
      | cons g0 gs =>
        rw [hsd] at h
        injection h with h1 h2
        subst h2
        rw [← h1, ih g0 (by rw [hsd])]

theorem splitDashes_eq_two (cs a b : List Char)
    (h : splitDashes cs = [a, b]) : cs = a ++ '-' :: b := by
  induction cs generalizing a b with
  | nil => simp [splitDashes] at h
  | cons c rest ih =>
    rw [splitDashes] at h
    by_cases hc : c = '-'
    · rw [if_pos hc] at h
      injection h with h1 h2
      rw [← h1, List.nil_append, hc, splitDashes_eq_one rest b h2]
    · rw [if_neg hc] at h
      cases hsd : splitDashes rest with
      | nil => exact absurd hsd (splitDashes_ne_nil rest)
      | cons g0 gs =>
        rw [hsd] at h
        injection h with h1 h2
        subst h2
        rw [← h1, List.cons_append, ih g0 b (by rw [hsd])]

theorem splitDashes_eq_three (cs a b d : List Char)
    (h : splitDashes cs = [a, b, d]) : cs = a ++ '-' :: b ++ '-' :: d := by
  induction cs generalizing a b d with
  | nil => simp [splitDashes] at h
  | cons c rest ih =>
    rw [splitDashes] at h
    by_cases hc : c = '-'
    · rw [if_pos hc] at h
      injection h with h1 h2
      rw [← h1, List.nil_append, hc, splitDashes_eq_two rest b d h2]
      simp
    · rw [if_neg hc] at h
      cases hsd : splitDashes rest with
      | nil => exact absurd hsd (splitDashes_ne_nil rest)
      | cons g0 gs =>
        rw [hsd] at h
        injection h with h1 h2
        subst h2
        rw [← h1, List.cons_append, ih g0 b d (by rw [hsd])]
        simp

theorem takeWhile_digit_group (a b : List Char)
    (h : ∀ c ∈ a, c.isDigit = true) :
    (a ++ '-' :: b).takeWhile Char.isDigit = a ∧
    (a ++ '-' :: b).dropWhile Char.isDigit = '-' :: b := by
  induction a with
  | nil =>
    rw [List.nil_append]
    constructor
    · rw [List.takeWhile_cons, if_neg (by decide)]
    · rw [List.dropWhile_cons, if_neg (by decide)]
  | cons c a2 ih =>
    obtain ⟨ih1, ih2⟩ := ih fun x hx => h x (List.mem_cons_of_mem c hx)
    have hcd : c.isDigit = true := h c (List.mem_cons_self c a2)
    constructor
    · rw [List.cons_append, List.takeWhile_cons, if_pos hcd, ih1]
    · rw [List.cons_append, List.dropWhile_cons, if_pos hcd, ih2]

theorem daysInMonth_le_31 (y m : Nat) : daysInMonth y m ≤ 31 := by
  rw [daysInMonth]
  split_ifs <;> omega

theorem length_eq_four (l : List Char) (h : l.length = 4) :
    ∃ a b c d, l = [a, b, c, d] := by
  rcases l with - | ⟨a, - | ⟨b, - | ⟨c, - | ⟨d, - | ⟨e, r⟩⟩⟩⟩⟩ <;>
    simp at h
  exact ⟨a, b, c, d, rfl⟩

/-- The code's `%Y-%m-%d` parser accepts a token exactly when the amended
claim's date language does: four year digits, one or two month digits
valued 1–12, one or two day digits valid for that month, year at least
0001. -/
theorem strptime_iff_specDate (s : String) :
    (strptimeYmd s).isSome = true ↔ specLenientDate s = true := by
  rw [strptimeYmd, specLenientDate]
  constructor
  · intro h
    rcases hcs : s.toList with - | ⟨y1, - | ⟨y2, - | ⟨y3, - | ⟨y4, - |
        ⟨d5, rest⟩⟩⟩⟩⟩ <;> rw [hcs] at h
    · exact Bool.noConfusion h
    · exact Bool.noConfusion h
    · exact Bool.noConfusion h
    · exact Bool.noConfusion h
    · exact Bool.noConfusion h
    · simp only [strptimeYmdL] at h
      split_ifs at h with h1
      · obtain ⟨hd5, hy1, hy2, hy3, hy4⟩ := h1
        subst hd5
        cases hdw : rest.dropWhile Char.isDigit with
        | nil =>
          rw [hdw] at h
          exact Bool.noConfusion h
        | cons d2 dcs =>
          rw [hdw] at h
          dsimp only at h
          split_ifs at h with h2
          · obtain ⟨hd2, hdigd, hml, hm1, hm2, hdl, hd1, hd31, hy, hdm⟩ := h2
            subst hd2
            have hddig : ∀ c ∈ dcs, c.isDigit = true := by
              rw [List.all_eq_true] at hdigd
              exact hdigd
            have hrest : rest =
                rest.takeWhile Char.isDigit ++ '-' :: dcs := by
              conv_lhs => rw [← List.takeWhile_append_dropWhile
                (p := Char.isDigit) (l := rest)]
              rw [hdw]
            have hmdig : ∀ c ∈ rest.takeWhile Char.isDigit,
                c.isDigit = true := fun c hc => List.mem_takeWhile_imp hc
            have hyd : ∀ c ∈ [y1, y2, y3, y4], ¬(c = '-') := by
              intro c hc
              simp only [List.mem_cons, List.not_mem_nil, or_false] at hc
              rcases hc with rfl | rfl | rfl | rfl <;>
                exact digit_ne_dash _ (by assumption)
            rw [specDateL]
            rw [hrest]
            rw [show y1 :: y2 :: y3 :: y4 :: '-' ::
                  (rest.takeWhile Char.isDigit ++ '-' :: dcs) =
                [y1, y2, y3, y4] ++ '-' ::
                  (rest.takeWhile Char.isDigit ++ '-' :: dcs) from rfl]
            rw [splitDashes_group _ _ hyd]
            rw [splitDashes_group _ _
              (fun c hc => digit_ne_dash c (hmdig c hc))]
            rw [splitDashes_singleton dcs
              (fun c hc => digit_ne_dash c (hddig c hc))]
            simp only [Bool.and_eq_true, List.all_eq_true, beq_iff_eq,
              Bool.or_eq_true, decide_eq_true_eq]
            refine ⟨?_, hdm⟩
            refine ⟨?_, hd1⟩
            refine ⟨?_, hdl⟩
            refine ⟨?_, hddig⟩
            refine ⟨?_, hm2⟩
            refine ⟨?_, hm1⟩
            refine ⟨?_, hml⟩
            refine ⟨?_, hmdig⟩
            refine ⟨?_, hy⟩
            refine ⟨?_, by trivial⟩
            intro c hc
            simp only [List.mem_cons, List.not_mem_nil, or_false] at hc
            rcases hc with rfl | rfl | rfl | rfl <;> assumption
          · exact Bool.noConfusion h
      · exact Bool.noConfusion h
  · intro h
    rw [specDateL] at h
    cases hsd : splitDashes s.toList with
    | nil => exact absurd hsd (splitDashes_ne_nil _)
    | cons g1 gs1 =>
      rw [hsd] at h
      cases gs1 with
      | nil => exact Bool.noConfusion h
      | cons g2 gs2 =>
        cases gs2 with
        | nil => exact Bool.noConfusion h
        | cons g3 gs3 =>
          cases gs3 with
          | cons g4 gs4 => exact Bool.noConfusion h
          | nil =>
            simp only [Bool.and_eq_true, List.all_eq_true, beq_iff_eq,
              Bool.or_eq_true, decide_eq_true_eq] at h
            obtain ⟨h, hdm⟩ := h
            obtain ⟨h, hd1⟩ := h
            obtain ⟨h, hdlen⟩ := h
            obtain ⟨h, hddig⟩ := h
            obtain ⟨h, hm2⟩ := h
            obtain ⟨h, hm1⟩ := h
            obtain ⟨h, hmlen⟩ := h
            obtain ⟨h, hmdig⟩ := h
            obtain ⟨h, hy⟩ := h
            obtain ⟨hydig, hylen⟩ := h
            obtain ⟨a, b, c, d, rfl⟩ := length_eq_four g1 hylen
            have hcs2 : s.toList =
                a :: b :: c :: d :: '-' :: (g2 ++ '-' :: g3) :=
              splitDashes_eq_three _ _ _ _ hsd
            rw [hcs2]
            simp only [strptimeYmdL]
            obtain ⟨htw, hdw⟩ := takeWhile_digit_group g2 g3 hmdig
            rw [if_pos ⟨by trivial, hydig a (by simp), hydig b (by simp),
              hydig c (by simp), hydig d (by simp)⟩, htw, hdw]
            dsimp only
            rw [if_pos ⟨by trivial, List.all_eq_true.mpr hddig, hmlen, hm1,
              hm2, hdlen, hd1, le_trans hdm (daysInMonth_le_31 _ _), hy, hdm⟩]
            rfl

/-- C2 (counterexample): the code accepts `"2024-8-9 S LP"` as Valid even
though `"2024-8-9"` is not a date in zero-padded `YYYY-MM-DD` form, so the
claimed iff (Valid exactly for strict `YYYY-MM-DD` dates) fails. -/
theorem C2_counterexample :
    check_transaction "2024-8-9 S LP" = ["2024-8-9", "S", "LP"] ∧
    specStrictDate "2024-8-9" = false :=
  ⟨by decide, by decide⟩

/-- C2 (amended): the validator equals the specification validator whose
date language is Python's lenient `%Y-%m-%d` (exactly four year digits with
year ≥ 0001, one- or two-digit month 1–12, one- or two-digit day bounded by
the month's length, leap years respected): exactly three whitespace
tokens with such a date, a size in `{S, M, L}` and a provider in
`{LP, MR}` yield `Valid` with those tokens; every other line yields
`Invalid` carrying the original text. -/
theorem C2_validator_spec (line : String) :
    check_transaction line = specValidate line := by
  rw [check_transaction.eq_def, specValidate.eq_def]
  rcases hsp : pySplit line with - | ⟨a, - | ⟨b, - | ⟨c, - | ⟨d, rest⟩⟩⟩⟩ <;>
    dsimp only
  · have hiff := strptime_iff_specDate a
    by_cases hd0 : (strptimeYmd a).isSome = true
    · have hsl : specLenientDate a = true := hiff.mp hd0
      have hne : ¬((strptimeYmd a).isNone = true) := by
        intro hh
        rw [Option.isNone_iff_eq_none] at hh
        rw [hh] at hd0
        exact Bool.noConfusion hd0
      rw [if_neg hne]
      by_cases hB : b ∈ (["S", "M", "L"] : List String)
      · by_cases hC : c ∈ (["LP", "MR"] : List String)
        · have hB2 : (b = "S" ∨ b = "M") ∨ b = "L" := by
            have hmem := hB
            simp only [List.mem_cons, List.not_mem_nil, or_false] at hmem
            tauto
          have hC2 : c = "LP" ∨ c = "MR" := by simpa using hC
          rw [if_neg (show ¬(b ∉ (["S", "M", "L"] : List String) ∨
              c ∉ (["LP", "MR"] : List String)) by
            push_neg
            exact ⟨hB, hC⟩)]
          rw [if_pos (by
            simp only [hsl, Bool.and_eq_true, Bool.or_eq_true, beq_iff_eq,
              Bool.true_and]
            exact ⟨hB2, hC2⟩)]
        · rw [if_pos (Or.inr hC),
            if_neg (by
              simp only [Bool.and_eq_true, Bool.or_eq_true, beq_iff_eq]
              intro hcon
              rcases hcon.2 with rfl | rfl <;> simp at hC)]
      · rw [if_pos (Or.inl hB),
          if_neg (by
            simp only [Bool.and_eq_true, Bool.or_eq_true, beq_iff_eq]
            intro hcon
            rcases hcon.1.2 with (rfl | rfl) | rfl <;> simp at hB)]
    · have hno : (strptimeYmd a).isNone = true := by
        cases ho : strptimeYmd a with
        | none => rfl
        | some v =>
          rw [ho] at hd0
          exact absurd rfl hd0
      have hsl : specLenientDate a = false := by
        cases hx : specLenientDate a with
        | false => rfl
        | true => exact absurd (hiff.mpr hx) hd0
      rw [if_pos hno, if_neg (by simp [hsl])]

/-- A Valid triple's components, extracted from `validEntry`. -/
theorem validEntry_triple (d s p : String) (h : validEntry [d, s, p] = true) :
    (strptimeYmd d).isSome = true ∧ (s = "S" ∨ s = "M" ∨ s = "L") ∧
      (p = "LP" ∨ p = "MR") := by
  simp only [validEntry, Bool.and_eq_true, Bool.or_eq_true, beq_iff_eq] at h
  exact ⟨h.1.1, by tauto, by tauto⟩

/-- C9: a Valid transaction's output line is
`date size provider price discount-or-dash` with the price rendered by
`formatCents` (a point and exactly two digits at the end), the dash
appearing exactly when the discount granted is 0, and a non-zero discount
rendered by `formatCents` as well. -/
theorem C9_line_format (d s p : String) (rest : List (List String))
    (td : TrackingData) (hv : validEntry [d, s, p] = true) :
    ∃ np da td2,
      calculate_discount s p (pyTake d 7) td = some (np, da, td2) ∧
      processLoop ([d, s, p] :: rest) td =
        (processLoop rest td2).map
          (fun r =>
            ((if da = 0 then
                d ++ " " ++ s ++ " " ++ p ++ " " ++ formatCents np ++ " -"
              else
                d ++ " " ++ s ++ " " ++ p ++ " " ++ formatCents np ++ " " ++
                  formatCents da) :: r.1, r.2)) ∧
      twoDP (formatCents np) ∧ twoDP (formatCents da) := by
  obtain ⟨hdt, hs, hp⟩ := validEntry_triple d s p hv
  obtain ⟨np, da, md', hK, k1, k2, k3, k4, hPL, hDT⟩ :=
    processLoop_cons_valid d s p rest td hs hp
  have hline : renderLine d s p ((PRICES_entry p s).getD 0) np da =
      (if da = 0 then
        d ++ " " ++ s ++ " " ++ p ++ " " ++ formatCents np ++ " -"
      else
        d ++ " " ++ s ++ " " ++ p ++ " " ++ formatCents np ++ " " ++
          formatCents da) := by
    by_cases hda : da = 0
    · rw [if_pos hda, renderLine, if_pos (And.intro (k4 hda) hda), k4 hda]
    · rw [if_neg hda, renderLine, if_neg fun hcon => hda hcon.2]
  refine ⟨np, da, updateTd td (pyTake d 7) fun _ => md', ?_, ?_,
    twoDP_formatCents np, twoDP_formatCents da⟩
  · rw [calculate_discount_eq_calcK, hK]
    rfl
  · rw [hPL, hline]

/-- Swapping two adjacent Valid transactions of different months: both
orders emit the same two lines (swapped) and reach the same state. -/
theorem processLoop_swap_pair (d1 s1 p1 d2 s2 p2 : String)
    (B : List (List String)) (td : TrackingData)
    (hs1 : s1 = "S" ∨ s1 = "M" ∨ s1 = "L") (hp1 : p1 = "LP" ∨ p1 = "MR")
    (hs2 : s2 = "S" ∨ s2 = "M" ∨ s2 = "L") (hp2 : p2 = "LP" ∨ p2 = "MR")
    (hym : pyTake d1 7 ≠ pyTake d2 7) :
    ∃ l1 l2 tdF,
      processLoop ([d1, s1, p1] :: [d2, s2, p2] :: B) td =
        (processLoop B tdF).map (fun r => (l1 :: l2 :: r.1, r.2)) ∧
      processLoop ([d2, s2, p2] :: [d1, s1, p1] :: B) td =
        (processLoop B tdF).map fun r => (l2 :: l1 :: r.1, r.2) := by
  obtain ⟨np1, da1, md1, hK1, -, -, -, -, hPL1, -⟩ :=
    processLoop_cons_valid d1 s1 p1 ([d2, s2, p2] :: B) td hs1 hp1
  obtain ⟨np2, da2, md2, hK2, -, -, -, -, hPL2, -⟩ :=
    processLoop_cons_valid d2 s2 p2 B
      (updateTd td (pyTake d1 7) fun _ => md1) hs2 hp2
  obtain ⟨np2', da2', md2', hK2', -, -, -, -, hPL3, -⟩ :=
    processLoop_cons_valid d2 s2 p2 ([d1, s1, p1] :: B) td hs2 hp2
  obtain ⟨np1', da1', md1', hK1', -, -, -, -, hPL4, -⟩ :=
    processLoop_cons_valid d1 s1 p1 B
      (updateTd td (pyTake d2 7) fun _ => md2') hs1 hp1
  rw [updateTd_other _ _ _ _ (Ne.symm hym)] at hK2
  rw [updateTd_other _ _ _ _ hym] at hK1'
  have h2eq : (np2, da2, md2) = (np2', da2', md2') :=
    Option.some.inj (hK2.symm.trans hK2')
  have h1eq : (np1, da1, md1) = (np1', da1', md1') :=
    Option.some.inj (hK1.symm.trans hK1')
  simp only [Prod.mk.injEq] at h2eq h1eq
  obtain ⟨hnp2, hda2, hmd2⟩ := h2eq
  obtain ⟨hnp1, hda1, hmd1⟩ := h1eq
  subst hnp2
  subst hda2
  subst hmd2
  subst hnp1
  subst hda1
  subst hmd1
  have hstates :
      updateTd (updateTd td (pyTake d2 7) fun _ => md2) (pyTake d1 7)
          (fun _ => md1) =
        updateTd (updateTd td (pyTake d1 7) fun _ => md1) (pyTake d2 7)
          fun _ => md2 := by
    funext k
    by_cases hk1 : k = pyTake d1 7
    · subst hk1
      rw [updateTd_same, updateTd_other _ _ _ _ hym, updateTd_same]
    · by_cases hk2 : k = pyTake d2 7
      · subst hk2
        rw [updateTd_other _ _ _ _ hk1, updateTd_same, updateTd_same]
      · rw [updateTd_other _ _ _ _ hk1, updateTd_other _ _ _ _ hk2,
          updateTd_other _ _ _ _ hk2, updateTd_other _ _ _ _ hk1]
  refine ⟨renderLine d1 s1 p1 ((PRICES_entry p1 s1).getD 0) np1 da1,
    renderLine d2 s2 p2 ((PRICES_entry p2 s2).getD 0) np2 da2,
    updateTd (updateTd td (pyTake d1 7) fun _ => md1) (pyTake d2 7)
      fun _ => md2, ?_, ?_⟩
  · rw [hPL1, hPL2]
    cases processLoop B (updateTd
        (updateTd td (pyTake d1 7) fun _ => md1) (pyTake d2 7)
        fun _ => md2) with
    | none => rfl
    | some r => rfl
  · rw [hPL3, hPL4, hstates]
    cases processLoop B (updateTd
        (updateTd td (pyTake d1 7) fun _ => md1) (pyTake d2 7)
        fun _ => md2) with
    | none => rfl
    | some r => rfl

/-- C8: swapping two adjacent Valid transactions that belong to different
year-months swaps only the positions of their two output lines: the two
lines themselves (hence each transaction's charged price and granted
discount) and every other output line are unchanged in both runs. -/
theorem C8_swap_different_months (A B : List (List String))
    (d1 s1 p1 d2 s2 p2 : String)
    (hA : ∀ e ∈ A, validEntry e = true)
    (hB : ∀ e ∈ B, validEntry e = true)
    (h1 : validEntry [d1, s1, p1] = true)
    (h2 : validEntry [d2, s2, p2] = true)
    (hym : pyTake d1 7 ≠ pyTake d2 7) :
    ∃ outA l1 l2 outB,
      process_transactions (A ++ [d1, s1, p1] :: [d2, s2, p2] :: B) =
        some (outA ++ l1 :: l2 :: outB) ∧
      process_transactions (A ++ [d2, s2, p2] :: [d1, s1, p1] :: B) =
        some (outA ++ l2 :: l1 :: outB) := by
  obtain ⟨-, hs1, hp1⟩ := validEntry_triple d1 s1 p1 h1
  obtain ⟨-, hs2, hp2⟩ := validEntry_triple d2 s2 p2 h2
  obtain ⟨outA, traceA, tdA, g1, -, -, -⟩ :=
    processLoop_master A initialTracking hA
  obtain ⟨l1, l2, tdF, hp12, hp21⟩ :=
    processLoop_swap_pair d1 s1 p1 d2 s2 p2 B tdA hs1 hp1 hs2 hp2 hym
  obtain ⟨outB, traceB, tdB, j1, -, -, -⟩ := processLoop_master B tdF hB
  refine ⟨outA, l1, l2, outB, ?_, ?_⟩
  · rw [process_transactions, processLoop_append, g1, Option.some_bind,
      hp12, j1]
    rfl
  · rw [process_transactions, processLoop_append, g1, Option.some_bind,
      hp21, j1]
    rfl

/-- Witness for C8: two one-transaction months around empty context
lists. -/
theorem C8_swap_different_months_witness :
    ∃ outA l1 l2 outB,
      process_transactions ([] ++ ["2024-08-09", "L", "LP"] ::
          ["2024-09-01", "S", "MR"] :: [["2024-09-02", "M", "LP"]]) =
        some (outA ++ l1 :: l2 :: outB) ∧
      process_transactions ([] ++ ["2024-09-01", "S", "MR"] ::
          ["2024-08-09", "L", "LP"] :: [["2024-09-02", "M", "LP"]]) =
        some (outA ++ l2 :: l1 :: outB) :=
  C8_swap_different_months [] [["2024-09-02", "M", "LP"]]
    "2024-08-09" "L" "LP" "2024-09-01" "S" "MR"
    (by decide) (by decide) (by decide) (by decide) (by decide)

/-- Witness for C9 on a Small/MR transaction from a fresh state. -/
theorem C9_line_format_witness :
    validEntry ["2024-08-09", "S", "MR"] = true ∧
    ∃ np da td2,
      calculate_discount "S" "MR" (pyTake "2024-08-09" 7) initialTracking =
        some (np, da, td2) ∧
      processLoop [["2024-08-09", "S", "MR"]] initialTracking =
        (processLoop [] td2).map
          (fun r =>
            ((if da = 0 then
                "2024-08-09" ++ " " ++ "S" ++ " " ++ "MR" ++ " " ++
                  formatCents np ++ " -"
              else
                "2024-08-09" ++ " " ++ "S" ++ " " ++ "MR" ++ " " ++
                  formatCents np ++ " " ++ formatCents da) :: r.1, r.2)) ∧
      twoDP (formatCents np) ∧ twoDP (formatCents da) :=
  ⟨by decide,
    C9_line_format "2024-08-09" "S" "MR" [] initialTracking (by decide)⟩

end Vinted
